import Mathlib

/-!
Verification of the target-derivation and publish-orchestration core of the
rustreleaser repository (src/brew/mod.rs, src/main.rs,
src/github/builder/create_pull_request_builder.rs), as a shallow embedding.

Rust panics (String.remove on an empty string, Option.unwrap on None) are
modelled by Option results or explicit outcome constructors; fallible
collaborator calls are driven by an explicit environment record, and the
workflow functions return the ordered trace of calls they attempted.
-/

namespace Rustreleaser

/-- Modelled from the spec: the OS tag of a build artifact (build::os::Os is
not under src; only the tags mentioned by the spec examples are needed). -/
inductive Os where
  | linux
  | darwin
  | windows
deriving DecidableEq, Repr

/-- Modelled from the spec: the architecture tag of a build artifact
(build::arch::Arch is not under src). -/
inductive Arch where
  | amd64
  | arm64
deriving DecidableEq, Repr

/-- A build artifact, from the fields of brew::package::Package that
src/brew/mod.rs reads: url, sha256, and optional os and arch tags. -/
structure Package where
  os : Option Os
  arch : Option Arch
  url : String
  sha256 : String
deriving DecidableEq, Repr

/-- One architecture entry of a multi target (struct BrewArch). -/
structure BrewArch where
  arch : Arch
  url : String
  hash : String
deriving DecidableEq, Repr

/-- struct SingleTarget. -/
structure SingleTarget where
  url : String
  hash : String
deriving DecidableEq, Repr

/-- struct MultiTarget. -/
structure MultiTarget where
  os : Os
  archs : List BrewArch
deriving DecidableEq, Repr

/-- enum Target. -/
inductive Target where
  | single (t : SingleTarget)
  | multi (t : MultiTarget)
deriving DecidableEq, Repr

/-- struct Targets(pub Vec of Target). -/
structure Targets where
  toList : List Target
deriving DecidableEq, Repr

/-- The consecutive-run grouping of itertools group_by, keyed by the os
field: adjacent packages with equal os land in one group; a key that
reappears after a different key starts a fresh group. -/
def groupRuns : List Package → List (Option Os × List Package)
  | [] => []
  | p :: ps =>
    match groupRuns ps with
    | [] => [(p.os, [p])]
    | (k, g) :: rest =>
      if p.os = k then (k, p :: g) :: rest
      else (p.os, [p]) :: (k, g) :: rest

/-- Builds one MultiTarget from one group_by group, mirroring the closure in
the multi branch of From for Targets: g.0.unwrap() on the os key and
p.arch.unwrap() on each member; None makes the whole call panic. -/
def mkMultiTarget (g : Option Os × List Package) : Option MultiTarget := do
  let os ← g.1
  let archs ← g.2.mapM (fun p => p.arch.map (fun a => BrewArch.mk a p.url p.sha256))
  pure ⟨os, archs⟩

/-- impl From for Targets (src/brew/mod.rs): empty input gives empty Targets;
a first package with neither arch nor os gives one Single from that first
package; otherwise group_by over os, each group mapped through the unwraps
of mkMultiTarget. none models the panic of an unwrap. -/
def Targets.fromPackages (value : List Package) : Option Targets :=
  match value with
  | [] => some ⟨[]⟩
  | p0 :: _ =>
    if p0.arch = none ∧ p0.os = none then
      some ⟨[Target.single ⟨p0.url, p0.sha256⟩]⟩
    else
      ((groupRuns value).mapM mkMultiTarget).map (fun ms => ⟨ms.map Target.multi⟩)

/-- Modelled from the spec: the distinct os keys of a package sequence in
order of first appearance. -/
def firstKeys : List Package → List (Option Os)
  | [] => []
  | p :: ps => p.os :: (firstKeys ps).filter (fun k => k ≠ p.os)

/-- Modelled from the spec: partition the packages by os, first-appearance
order of the distinct os values, input order inside each part. -/
def partitionByOs (value : List Package) : List (Option Os × List Package) :=
  (firstKeys value).map (fun k => (k, value.filter (fun p => p.os = k)))

/-- Modelled from the spec: the MultiTarget the spec expects for one part of
the partition. The getD defaults never fire under the all-tagged
hypothesis of the claims that use this. -/
def specMultiT (g : Option Os × List Package) : MultiTarget :=
  ⟨g.1.getD Os.linux,
   g.2.map (fun p => BrewArch.mk (p.arch.getD Arch.amd64) p.url p.sha256)⟩

/-- Modelled from the spec: the Multi entry the spec expects for one part of
the partition. -/
def specMulti (g : Option Os × List Package) : Target :=
  Target.multi (specMultiT g)

/-- Equal os values appear only in adjacent positions: every run of the
group_by grouping carries a key distinct from every other run. Under this
condition consecutive-run grouping and partition-by-distinct-os coincide. -/
def osContiguous (value : List Package) : Prop :=
  ((groupRuns value).map Prod.fst).Nodup

instance (value : List Package) : Decidable (osContiguous value) := by
  unfold osContiguous; infer_instance

/-- Every package of the input has both os and arch set. -/
def allTagged (value : List Package) : Prop :=
  ∀ p ∈ value, p.os.isSome ∧ p.arch.isSome

instance (value : List Package) : Decidable (allTagged value) := by
  unfold allTagged; infer_instance

/-- fn captalize (src/brew/mod.rs): s.remove(0) panics on an empty string
(none); otherwise the removed first character is upper-cased and the rest is
appended. Char.toUpper matches the Rust char upper-casing on the ASCII
names this core handles. -/
def captalize (s : String) : Option String :=
  match s.data with
  | [] => none
  | c :: rest => some (String.mk (c.toUpper :: rest))

/-- config::CommitterConfig, from the fields read by the From impl at the
bottom of src/brew/mod.rs: name and email. -/
structure CommitterConfig where
  name : String
  email : String
deriving DecidableEq, Repr

/-- config::PullRequestConfig, from the fields push_formula reads: title,
body, labels, assignees, head, base, all optional. -/
structure PullRequestConfig where
  title : Option String
  body : Option String
  labels : Option (List String)
  assignees : Option (List String)
  head : Option String
  base : Option String
deriving DecidableEq, Repr

/-- brew::repository::Repository, from the fields src/brew/mod.rs reads:
owner and name. -/
structure Repository where
  owner : String
  name : String
deriving DecidableEq, Repr

/-- Modelled from the spec: opaque install metadata (brew::install::Install
is not under src; nothing in this core inspects it). -/
structure Install where
  raw : String
deriving DecidableEq, Repr

/-- config::BrewConfig, from the fields Brew::new reads. -/
structure BrewConfig where
  name : String
  description : Option String
  homepage : Option String
  license : Option String
  head : Option String
  test : Option String
  caveats : Option String
  commitMessage : Option String
  commitAuthor : Option CommitterConfig
  install : Install
  repository : Repository
  pullRequest : Option PullRequestConfig
deriving DecidableEq, Repr

/-- struct Brew (src/brew/mod.rs). -/
structure Brew where
  name : String
  description : Option String
  homepage : Option String
  license : Option String
  head : String
  test : Option String
  caveats : Option String
  commitMessage : String
  commitAuthor : Option CommitterConfig
  installInfo : Install
  repository : Repository
  version : String
  pullRequest : Option PullRequestConfig
  targets : Targets
deriving DecidableEq, Repr

/-- const DEFAULT_BASE_BRANCH_NAME. -/
def DEFAULT_BASE_BRANCH_NAME : String := "main"

/-- const DEFAULT_COMMIT_MESSAGE. -/
def DEFAULT_COMMIT_MESSAGE : String := "update formula"

/-- Outcome of Brew::new. The Rust function returns a plain Brew and has no
error channel at all: it either produces a value or the process panics
(inside captalize or inside the unwraps of Targets::from). The configError
constructor is never produced by the code; it exists so that the behaviour
the spec claims for an empty name (an InvalidConfig error return) is
statable and refutable. -/
inductive AssembleResult where
  | ok (b : Brew)
  | configError
  | panicked
deriving DecidableEq, Repr

/-- impl Brew::new: captalize the configured name (field order in the Rust
struct literal evaluates the name first, so an empty name panics before
anything else), derive targets, default head to "main" and the commit
message to "update formula". -/
def Brew.new (brew : BrewConfig) (version : String) (packages : List Package) : AssembleResult :=
  match captalize brew.name with
  | none => .panicked
  | some name =>
    match Targets.fromPackages packages with
    | none => .panicked
    | some targets =>
      .ok {
        name := name
        description := brew.description
        homepage := brew.homepage
        license := brew.license
        head := brew.head.getD DEFAULT_BASE_BRANCH_NAME
        test := brew.test
        caveats := brew.caveats
        commitMessage := brew.commitMessage.getD DEFAULT_COMMIT_MESSAGE
        commitAuthor := brew.commitAuthor
        installInfo := brew.install
        repository := brew.repository
        version := version
        pullRequest := brew.pullRequest
        targets := targets
      }

/-- struct Committer (create_pull_request_builder.rs). -/
structure Committer where
  author : String
  email : String
deriving DecidableEq, Repr

/-- impl Default for Committer: the fixed fallback identity. -/
def Committer.default : Committer :=
  { author := "Rafael Vigo", email := "rvigo07+github@gmail.com" }

/-- impl From of CommitterConfig for Committer (src/brew/mod.rs). -/
def Committer.fromConfig (value : CommitterConfig) : Committer :=
  { author := value.name, email := value.email }

/-- struct CreatePullRequestBuilder. -/
structure CreatePullRequestBuilder where
  owner : String
  repo : String
  title : String
  body : Option String
  labels : Option (List String)
  assignees : Option (List String)
  committer : Option Committer
  base : Option String
  head : Option String
deriving DecidableEq, Repr

/-- CreatePullRequestBuilder::new. -/
def CreatePullRequestBuilder.new (owner repo : String) : CreatePullRequestBuilder :=
  { owner := owner, repo := repo, title := "", body := none, labels := none,
    assignees := none, committer := none, base := none, head := none }

/-- Builder method title. -/
def CreatePullRequestBuilder.setTitle (b : CreatePullRequestBuilder) (t : String) : CreatePullRequestBuilder :=
  { b with title := t }

/-- Builder method body. -/
def CreatePullRequestBuilder.setBody (b : CreatePullRequestBuilder) (s : String) : CreatePullRequestBuilder :=
  { b with body := some s }

/-- Builder method labels. -/
def CreatePullRequestBuilder.setLabels (b : CreatePullRequestBuilder) (ls : List String) : CreatePullRequestBuilder :=
  { b with labels := some ls }

/-- Builder method assignees. -/
def CreatePullRequestBuilder.setAssignees (b : CreatePullRequestBuilder) (as_ : List String) : CreatePullRequestBuilder :=
  { b with assignees := some as_ }

/-- Builder method committer. -/
def CreatePullRequestBuilder.setCommitter (b : CreatePullRequestBuilder) (c : Committer) : CreatePullRequestBuilder :=
  { b with committer := some c }

/-- Builder method base. -/
def CreatePullRequestBuilder.setBase (b : CreatePullRequestBuilder) (s : String) : CreatePullRequestBuilder :=
  { b with base := some s }

/-- Builder method head. -/
def CreatePullRequestBuilder.setHead (b : CreatePullRequestBuilder) (s : String) : CreatePullRequestBuilder :=
  { b with head := some s }

/-- Arguments handed to github_client create_pull_request by
CreatePullRequestBuilder::execute. -/
structure PrArgs where
  owner : String
  repo : String
  title : String
  head : String
  base : String
  body : Option String
  assignees : List String
  labels : List String
deriving DecidableEq, Repr

/-- CreatePullRequestBuilder::execute: head and base are unwrapped (none
models the panic); assignees and labels fall back to the empty list. -/
def CreatePullRequestBuilder.execute (b : CreatePullRequestBuilder) : Option PrArgs :=
  match b.head, b.base with
  | some h, some ba =>
    some { owner := b.owner, repo := b.repo, title := b.title, head := h, base := ba,
           body := b.body, assignees := b.assignees.getD [], labels := b.labels.getD [] }
  | _, _ => none

/-- template::Template, from the two variants src/brew/mod.rs selects
between (template.rs is not under src). -/
inductive Template where
  | singleTarget
  | multiTarget
deriving DecidableEq, Repr

/-- One remote call of the hosting client, with the arguments the workflow
passes. -/
inductive RemoteCall where
  | getCommitSha (branch : String)
  | createBranch (branch : String) (sha : String)
  | upsertFile (branch : String) (path : String) (message : String) (content : String) (committer : Option Committer)
  | createPullRequest (args : PrArgs)
deriving DecidableEq, Repr

/-- Observable events of one release run: the template render, the local
file write, and the remote calls, in the order they are attempted. -/
inductive Event where
  | rendered (t : Template)
  | wroteFile (path : String)
  | remote (c : RemoteCall)
deriving DecidableEq, Repr

/-- Result of a workflow function: success, an error wrapped with the
context string of the failing step, or a Rust panic. -/
inductive StepResult where
  | success
  | failed (context : String)
  | panicked
deriving DecidableEq, Repr

/-- Environment of collaborator outcomes for one run: the git tag lookup,
the renderer, the local file system, and the four remote operations. -/
structure Env where
  currentTag : Option String
  render : Template → Brew → Option String
  writeOk : Bool
  readFile : String → Option String
  getSha : String → Option String
  createBranchOk : String → String → Bool
  upsertOk : String → Bool
  createPrOk : Bool

/-- Committer resolution in push_formula: the configured author converted,
else the Default identity. -/
def committerOf (a : Option CommitterConfig) : Committer :=
  (a.map Committer.fromConfig).getD Committer.default

/-- Head branch resolution in push_formula. -/
def headBranchOf (pr : PullRequestConfig) : String :=
  pr.head.getD "bumps-formula-version"

/-- Base branch resolution in push_formula. -/
def baseBranchOf (pr : PullRequestConfig) : String :=
  pr.base.getD DEFAULT_BASE_BRANCH_NAME

/-- The builder chain of the create-pull-request step of push_formula, in
the exact order of the source: assignees, base, head, body, labels, title,
committer. -/
def prBuilderOf (repo : Repository) (pr : PullRequestConfig)
    (base_branch head_branch : String) (committer : Committer) : CreatePullRequestBuilder :=
  (((((((CreatePullRequestBuilder.new repo.owner repo.name).setAssignees
    (pr.assignees.getD [])).setBase base_branch).setHead head_branch).setBody
    (pr.body.getD "")).setLabels (pr.labels.getD [])).setTitle
    (pr.title.getD "")).setCommitter committer

/-- fn push_formula (src/brew/mod.rs), as outcome plus the ordered trace of
remote calls attempted. brew.pull_request.unwrap() panics when none; each
step short-circuits the rest; the local read of the formula file sits
between branch creation and the head-branch upload. -/
def push_formula (env : Env) (brew : Brew) : StepResult × List RemoteCall :=
  match brew.pullRequest with
  | none => (.panicked, [])
  | some pr =>
    match env.getSha (baseBranchOf pr) with
    | none => (.failed "error getting the base branch commit sha",
        [.getCommitSha (baseBranchOf pr)])
    | some sha =>
      if env.createBranchOk (headBranchOf pr) sha then
        match env.readFile (brew.name ++ ".rb") with
        | none => (.failed "error reading the local formula file",
            [.getCommitSha (baseBranchOf pr), .createBranch (headBranchOf pr) sha])
        | some content =>
          if env.upsertOk (headBranchOf pr) then
            match (prBuilderOf brew.repository pr (baseBranchOf pr) (headBranchOf pr)
                (committerOf brew.commitAuthor)).execute with
            | none => (.panicked,
                [.getCommitSha (baseBranchOf pr), .createBranch (headBranchOf pr) sha,
                 .upsertFile (headBranchOf pr) (brew.name ++ ".rb") brew.commitMessage content
                   (some (committerOf brew.commitAuthor))])
            | some args =>
              if env.createPrOk then
                (.success,
                  [.getCommitSha (baseBranchOf pr), .createBranch (headBranchOf pr) sha,
                   .upsertFile (headBranchOf pr) (brew.name ++ ".rb") brew.commitMessage content
                     (some (committerOf brew.commitAuthor)),
                   .createPullRequest args])
              else
                (.failed "error creating pull request",
                  [.getCommitSha (baseBranchOf pr), .createBranch (headBranchOf pr) sha,
                   .upsertFile (headBranchOf pr) (brew.name ++ ".rb") brew.commitMessage content
                     (some (committerOf brew.commitAuthor)),
                   .createPullRequest args])
          else
            (.failed "error uploading file to head branch",
              [.getCommitSha (baseBranchOf pr), .createBranch (headBranchOf pr) sha,
               .upsertFile (headBranchOf pr) (brew.name ++ ".rb") brew.commitMessage content
                 (some (committerOf brew.commitAuthor))])
      else
        (.failed "error creating the branch",
          [.getCommitSha (baseBranchOf pr), .createBranch (headBranchOf pr) sha])

/-- fn release (src/brew/mod.rs): resolve the tag, assemble the Brew, pick
the template from the multitarget flag, render, write the local file, then
either push_formula (pull request configured) or one direct upsert_file on
the head branch without a committer. -/
def release (env : Env) (cfg : BrewConfig) (packages : List Package)
    (is_multitarget : Bool) : StepResult × List Event :=
  match env.currentTag with
  | none => (.failed "error getting the current tag", [])
  | some tag =>
    match Brew.new cfg tag packages with
    | .ok brew =>
      match env.render (if is_multitarget then Template.multiTarget else Template.singleTarget) brew with
      | none => (.failed "error rendering the formula template",
          [.rendered (if is_multitarget then Template.multiTarget else Template.singleTarget)])
      | some data =>
        if env.writeOk then
          if brew.pullRequest.isSome then
            ((push_formula env brew).1,
             [.rendered (if is_multitarget then Template.multiTarget else Template.singleTarget),
              .wroteFile (brew.name ++ ".rb")] ++ (push_formula env brew).2.map Event.remote)
          else
            if env.upsertOk brew.head then
              (.success,
                [.rendered (if is_multitarget then Template.multiTarget else Template.singleTarget),
                 .wroteFile (brew.name ++ ".rb"),
                 .remote (.upsertFile brew.head (brew.name ++ ".rb") brew.commitMessage data none)])
            else
              (.failed "error uploading file to main branch",
                [.rendered (if is_multitarget then Template.multiTarget else Template.singleTarget),
                 .wroteFile (brew.name ++ ".rb"),
                 .remote (.upsertFile brew.head (brew.name ++ ".rb") brew.commitMessage data none)])
        else
          (.failed "error writing the local formula file",
            [.rendered (if is_multitarget then Template.multiTarget else Template.singleTarget)])
    | _ => (.panicked, [])

/-- The brew step of fn main (src/main.rs): brew::release is always invoked
with the multitarget flag literally false. -/
def mainBrewRelease (env : Env) (cfg : BrewConfig) (packages : List Package) : StepResult × List Event :=
  release env cfg packages false

/-- Remote calls of an event trace, in order. -/
def remoteCalls (es : List Event) : List RemoteCall :=
  es.filterMap (fun e => match e with | .remote c => some c | _ => none)

/-! Concrete fixtures used by witnesses and counterexamples. -/

/-- Fixture: linux amd64 artifact. -/
def pkgL1 : Package := ⟨some .linux, some .amd64, "u1", "h1"⟩

/-- Fixture: darwin arm64 artifact. -/
def pkgD2 : Package := ⟨some .darwin, some .arm64, "u2", "h2"⟩

/-- Fixture: linux arm64 artifact. -/
def pkgL3 : Package := ⟨some .linux, some .arm64, "u3", "h3"⟩

/-- Fixture: untagged artifact. -/
def pkgU : Package := ⟨none, none, "u0", "h0"⟩

/-- Fixture: a brew config with every optional field omitted. -/
def cfgBase : BrewConfig :=
  { name := "foo", description := none, homepage := none, license := none,
    head := none, test := none, caveats := none, commitMessage := none,
    commitAuthor := none, install := ⟨""⟩, repository := ⟨"cestef", "tap"⟩,
    pullRequest := none }

/-- Fixture: a pull request config with every field omitted. -/
def prCfgBase : PullRequestConfig :=
  { title := none, body := none, labels := none, assignees := none,
    head := none, base := none }

/-- Fixture: the Brew that Brew.new builds from cfgBase at tag v1.0.0 with no
packages. -/
def brewFoo : Brew :=
  { name := "Foo", description := none, homepage := none, license := none,
    head := "main", test := none, caveats := none,
    commitMessage := "update formula", commitAuthor := none,
    installInfo := ⟨""⟩, repository := ⟨"cestef", "tap"⟩, version := "v1.0.0",
    pullRequest := none, targets := ⟨[]⟩ }

/-- Fixture: brewFoo with the empty pull request config attached. -/
def brewFooPR : Brew := { brewFoo with pullRequest := some prCfgBase }

/-- Fixture: an environment in which every collaborator call succeeds. -/
def envAllOk : Env :=
  { currentTag := some "v1.0.0"
    render := fun _ _ => some "class Foo"
    writeOk := true
    readFile := fun _ => some "class Foo"
    getSha := fun _ => some "abc123"
    createBranchOk := fun _ _ => true
    upsertOk := fun _ => true
    createPrOk := true }

/-- Fixture: envAllOk except that branch creation fails. -/
def envBranchFails : Env := { envAllOk with createBranchOk := fun _ _ => false }

/-! Theorems: one per claim of the specification, with witnesses. -/

/-- C5: for every artifact sequence whose first element has neither os nor
arch set, derive yields exactly one Single target with the url and hash of
that first element, and the whole tail is ignored. -/
theorem single_policy (p : Package) (rest : List Package)
    (hos : p.os = none) (harch : p.arch = none) :
    Targets.fromPackages (p :: rest) = some ⟨[Target.single ⟨p.url, p.sha256⟩]⟩ := by
  simp [Targets.fromPackages, hos, harch]

/-- Witness for single_policy: the untagged fixture followed by a non-empty
tagged tail still yields exactly the one Single of the first element. -/
theorem single_policy_witness :
    Targets.fromPackages [pkgU, pkgL1] = some ⟨[Target.single ⟨"u0", "h0"⟩]⟩ :=
  single_policy pkgU [pkgL1] rfl rfl

/-- C7: derive of the empty sequence is empty, and for every input the
resulting collection is empty, exactly one Single, or all Multi — never a
mix and never more than one Single (none models the panic of the multi
branch unwraps). -/
theorem targets_never_mixed :
    Targets.fromPackages [] = some ⟨[]⟩ ∧
    ∀ value : List Package,
      Targets.fromPackages value = none ∨
      ∃ ts, Targets.fromPackages value = some ts ∧
        (ts.toList = [] ∨ (∃ s, ts.toList = [Target.single s]) ∨
         ∀ t ∈ ts.toList, ∃ m, t = Target.multi m) := by
  refine ⟨rfl, fun value => ?_⟩
  match value with
  | [] => exact Or.inr ⟨⟨[]⟩, rfl, Or.inl rfl⟩
  | p :: ps =>
    by_cases hc : p.arch = none ∧ p.os = none
    · refine Or.inr ⟨⟨[Target.single ⟨p.url, p.sha256⟩]⟩, ?_,
        Or.inr (Or.inl ⟨⟨p.url, p.sha256⟩, rfl⟩)⟩
      simp [Targets.fromPackages, hc]
    · have hfp : Targets.fromPackages (p :: ps) =
          ((groupRuns (p :: ps)).mapM mkMultiTarget).map (fun ms => ⟨ms.map Target.multi⟩) := by
        simp only [Targets.fromPackages, if_neg hc]
      rcases hm : (groupRuns (p :: ps)).mapM mkMultiTarget with _ | ms
      · exact Or.inl (by rw [hfp, hm]; rfl)
      · refine Or.inr ⟨⟨ms.map Target.multi⟩, by rw [hfp, hm]; rfl, Or.inr (Or.inr ?_)⟩
        intro t ht
        simp only [List.mem_map] at ht
        obtain ⟨m, _, rfl⟩ := ht
        exact ⟨m, rfl⟩

/-- C2 counterexample: with the empty configured name Brew::new panics
(String remove at index 0 inside captalize); it does not produce a
ConfigError value — the function has no error channel at all. -/
theorem empty_name_panics :
    Brew.new { cfgBase with name := "" } "v1.0.0" [] = AssembleResult.panicked ∧
    Brew.new { cfgBase with name := "" } "v1.0.0" [] ≠ AssembleResult.configError :=
  ⟨rfl, by decide⟩

/-- C2 (amended): assemble upper-cases the first character of the configured
name (captalize of foo is Foo, and every ok result carries exactly the
captalized name); with the empty name it fails by panicking, not by
returning a ConfigError/InvalidConfig error. -/
theorem name_normalization :
    captalize "foo" = some "Foo" ∧
    ∀ (cfg : BrewConfig) (v : String) (pkgs : List Package),
      (cfg.name = "" → Brew.new cfg v pkgs = AssembleResult.panicked) ∧
      (∀ b, Brew.new cfg v pkgs = AssembleResult.ok b → some b.name = captalize cfg.name) := by
  refine ⟨by decide, fun cfg v pkgs => ⟨?_, ?_⟩⟩
  · intro h
    have hc : captalize cfg.name = none := by rw [h]; decide
    simp [Brew.new, hc]
  · intro b hb
    unfold Brew.new at hb
    rcases hcap : captalize cfg.name with _ | nm <;> rw [hcap] at hb
    · exact absurd hb (by simp)
    rcases ht : Targets.fromPackages pkgs with _ | ts <;> rw [ht] at hb
    · exact absurd hb (by simp)
    · rw [AssembleResult.ok.injEq] at hb
      rw [← hb]

/-- Witness for name_normalization: the empty-name panic at a concrete
config. -/
theorem name_normalization_witness :
    Brew.new { cfgBase with name := "" } "v" [] = AssembleResult.panicked :=
  (name_normalization.2 { cfgBase with name := "" } "v" []).1 rfl

/-- C6: omitted head_branch resolves to bumps-formula-version; omitted
base_branch and omitted top-level head both resolve to main; an omitted
committer resolves to the fixed default identity; an omitted commit message
resolves to update formula. -/
theorem config_defaults :
    (∀ pr : PullRequestConfig, pr.head = none → headBranchOf pr = "bumps-formula-version") ∧
    (∀ pr : PullRequestConfig, pr.base = none → baseBranchOf pr = "main") ∧
    (∀ (cfg : BrewConfig) (v : String) (pkgs : List Package) (b : Brew),
      Brew.new cfg v pkgs = AssembleResult.ok b →
        (cfg.head = none → b.head = "main") ∧
        (cfg.commitMessage = none → b.commitMessage = "update formula")) ∧
    committerOf none = { author := "Rafael Vigo", email := "rvigo07+github@gmail.com" } := by
  refine ⟨fun pr h => by simp [headBranchOf, h],
    fun pr h => by simp [baseBranchOf, h, DEFAULT_BASE_BRANCH_NAME],
    fun cfg v pkgs b hb => ?_, rfl⟩
  unfold Brew.new at hb
  rcases hcap : captalize cfg.name with _ | nm <;> rw [hcap] at hb
  · exact absurd hb (by simp)
  rcases ht : Targets.fromPackages pkgs with _ | ts <;> rw [ht] at hb
  · exact absurd hb (by simp)
  · rw [AssembleResult.ok.injEq] at hb
    rw [← hb]
    exact ⟨fun h => by simp [h, DEFAULT_BASE_BRANCH_NAME],
      fun h => by simp [h, DEFAULT_COMMIT_MESSAGE]⟩

/-- Witness for config_defaults at the all-omitted fixtures. -/
theorem config_defaults_witness :
    headBranchOf prCfgBase = "bumps-formula-version" ∧
    baseBranchOf prCfgBase = "main" ∧
    brewFoo.head = "main" ∧
    brewFoo.commitMessage = "update formula" :=
  ⟨config_defaults.1 prCfgBase rfl, config_defaults.2.1 prCfgBase rfl,
   (config_defaults.2.2.1 cfgBase "v1.0.0" [] brewFoo (by decide)).1 rfl,
   (config_defaults.2.2.1 cfgBase "v1.0.0" [] brewFoo (by decide)).2 rfl⟩

/-- C10: execute of the create-pull-request builder panics exactly when head
or base was never set; the builder chain push_formula assembles always sets
both (along with title, body, labels, assignees and committer), so the
panic branch is unreachable from push_formula — once a pull request config
is present the PR path never panics. -/
theorem pr_builder_execute_total :
    (∀ b : CreatePullRequestBuilder, b.execute = none ↔ (b.head = none ∨ b.base = none)) ∧
    (∀ (repo : Repository) (pr : PullRequestConfig) (bb hb : String) (c : Committer),
      ((prBuilderOf repo pr bb hb c).execute).isSome) ∧
    (∀ (env : Env) (brew : Brew) (pr : PullRequestConfig),
      brew.pullRequest = some pr → (push_formula env brew).1 ≠ StepResult.panicked) := by
  have hsome : ∀ (repo : Repository) (pr : PullRequestConfig) (bb hb : String) (c : Committer),
      (prBuilderOf repo pr bb hb c).execute =
        some ⟨repo.owner, repo.name, pr.title.getD "", hb, bb, some (pr.body.getD ""),
          pr.assignees.getD [], pr.labels.getD []⟩ :=
    fun _ _ _ _ _ => rfl
  refine ⟨?_, ?_, ?_⟩
  · intro b
    cases hh : b.head <;> cases hb : b.base <;>
      simp [CreatePullRequestBuilder.execute, hh, hb]
  · intro repo pr bb hb c
    rw [hsome]
    rfl
  · intro env brew pr hpr
    simp only [push_formula, hpr]
    rcases hsha : env.getSha (baseBranchOf pr) with _ | sha
    · simp [hsha]
    cases hcb : env.createBranchOk (headBranchOf pr) sha
    · simp [hsha, hcb]
    rcases hrd : env.readFile (brew.name ++ ".rb") with _ | content
    · simp [hsha, hcb, hrd]
    cases hup : env.upsertOk (headBranchOf pr)
    · simp [hsha, hcb, hrd, hup]
    cases hpc : env.createPrOk
    · simp [hsha, hcb, hrd, hup, hpc, hsome]
    · simp [hsha, hcb, hrd, hup, hpc, hsome]

/-- Witness for pr_builder_execute_total: a concrete run with a pull request
configured does not panic. -/
theorem pr_builder_execute_total_witness :
    (push_formula envAllOk brewFooPR).1 ≠ StepResult.panicked :=
  pr_builder_execute_total.2.2 envAllOk brewFooPR prCfgBase rfl

/-- Helper: an ok outcome of Brew::new carries the pull request config of
the input unchanged. -/
lemma Brew.new_ok_pullRequest {cfg : BrewConfig} {v : String} {pkgs : List Package} {b : Brew}
    (h : Brew.new cfg v pkgs = AssembleResult.ok b) : b.pullRequest = cfg.pullRequest := by
  unfold Brew.new at h
  rcases hcap : captalize cfg.name with _ | nm <;> rw [hcap] at h
  · exact absurd h (by simp)
  rcases ht : Targets.fromPackages pkgs with _ | ts <;> rw [ht] at h
  · exact absurd h (by simp)
  · rw [AssembleResult.ok.injEq] at h
    rw [← h]

/-- C3: on the PR path the remote calls are attempted in the exact order
get_commit_sha, create_branch, upsert_file, create_pull_request — the trace
is always a prefix of that sequence — and the failure of any step prevents
every later step: a failing get_commit_sha leaves exactly one call, a
failing create_branch (or the local re-read after it) exactly two — so
neither upsert_file nor create_pull_request is attempted — a failing
upsert_file exactly three, and only a reached create_pull_request yields
all four calls. -/
theorem pr_path_order (env : Env) (brew : Brew) (pr : PullRequestConfig)
    (hpr : brew.pullRequest = some pr) :
    (∃ sha content args,
      (push_formula env brew).2 = [RemoteCall.getCommitSha (baseBranchOf pr)] ∨
      (push_formula env brew).2 =
        [RemoteCall.getCommitSha (baseBranchOf pr),
         RemoteCall.createBranch (headBranchOf pr) sha] ∨
      (push_formula env brew).2 =
        [RemoteCall.getCommitSha (baseBranchOf pr),
         RemoteCall.createBranch (headBranchOf pr) sha,
         RemoteCall.upsertFile (headBranchOf pr) (brew.name ++ ".rb") brew.commitMessage content
           (some (committerOf brew.commitAuthor))] ∨
      (push_formula env brew).2 =
        [RemoteCall.getCommitSha (baseBranchOf pr),
         RemoteCall.createBranch (headBranchOf pr) sha,
         RemoteCall.upsertFile (headBranchOf pr) (brew.name ++ ".rb") brew.commitMessage content
           (some (committerOf brew.commitAuthor)),
         RemoteCall.createPullRequest args]) ∧
    (env.getSha (baseBranchOf pr) = none →
      (push_formula env brew).2 = [RemoteCall.getCommitSha (baseBranchOf pr)]) ∧
    (∀ sha, env.getSha (baseBranchOf pr) = some sha →
      env.createBranchOk (headBranchOf pr) sha = false →
      (push_formula env brew).2 =
        [RemoteCall.getCommitSha (baseBranchOf pr),
         RemoteCall.createBranch (headBranchOf pr) sha]) ∧
    (∀ sha, env.getSha (baseBranchOf pr) = some sha →
      env.createBranchOk (headBranchOf pr) sha = true →
      env.readFile (brew.name ++ ".rb") = none →
      (push_formula env brew).2 =
        [RemoteCall.getCommitSha (baseBranchOf pr),
         RemoteCall.createBranch (headBranchOf pr) sha]) ∧
    (∀ sha content, env.getSha (baseBranchOf pr) = some sha →
      env.createBranchOk (headBranchOf pr) sha = true →
      env.readFile (brew.name ++ ".rb") = some content →
      env.upsertOk (headBranchOf pr) = false →
      (push_formula env brew).2 =
        [RemoteCall.getCommitSha (baseBranchOf pr),
         RemoteCall.createBranch (headBranchOf pr) sha,
         RemoteCall.upsertFile (headBranchOf pr) (brew.name ++ ".rb") brew.commitMessage content
           (some (committerOf brew.commitAuthor))]) ∧
    (∀ sha content, env.getSha (baseBranchOf pr) = some sha →
      env.createBranchOk (headBranchOf pr) sha = true →
      env.readFile (brew.name ++ ".rb") = some content →
      env.upsertOk (headBranchOf pr) = true →
      (push_formula env brew).2 =
        [RemoteCall.getCommitSha (baseBranchOf pr),
         RemoteCall.createBranch (headBranchOf pr) sha,
         RemoteCall.upsertFile (headBranchOf pr) (brew.name ++ ".rb") brew.commitMessage content
           (some (committerOf brew.commitAuthor)),
         RemoteCall.createPullRequest ⟨brew.repository.owner, brew.repository.name,
           pr.title.getD "", headBranchOf pr, baseBranchOf pr, some (pr.body.getD ""),
           pr.assignees.getD [], pr.labels.getD []⟩]) := by
  refine ⟨?_, ?_, ?_, ?_, ?_, ?_⟩
  · rcases hsha : env.getSha (baseBranchOf pr) with _ | sha
    · exact ⟨"", "", ⟨"", "", "", "", "", none, [], []⟩,
        Or.inl (by simp [push_formula, hpr, hsha])⟩
    cases hcb : env.createBranchOk (headBranchOf pr) sha
    · exact ⟨sha, "", ⟨"", "", "", "", "", none, [], []⟩,
        Or.inr (Or.inl (by simp [push_formula, hpr, hsha, hcb]))⟩
    rcases hrd : env.readFile (brew.name ++ ".rb") with _ | content
    · exact ⟨sha, "", ⟨"", "", "", "", "", none, [], []⟩,
        Or.inr (Or.inl (by simp [push_formula, hpr, hsha, hcb, hrd]))⟩
    cases hup : env.upsertOk (headBranchOf pr)
    · exact ⟨sha, content, ⟨"", "", "", "", "", none, [], []⟩,
        Or.inr (Or.inr (Or.inl (by simp [push_formula, hpr, hsha, hcb, hrd, hup])))⟩
    rcases hex : (prBuilderOf brew.repository pr (baseBranchOf pr) (headBranchOf pr)
        (committerOf brew.commitAuthor)).execute with _ | args
    · exact ⟨sha, content, ⟨"", "", "", "", "", none, [], []⟩,
        Or.inr (Or.inr (Or.inl (by simp [push_formula, hpr, hsha, hcb, hrd, hup, hex])))⟩
    cases hpc : env.createPrOk
    · exact ⟨sha, content, args,
        Or.inr (Or.inr (Or.inr (by simp [push_formula, hpr, hsha, hcb, hrd, hup, hex, hpc])))⟩
    · exact ⟨sha, content, args,
        Or.inr (Or.inr (Or.inr (by simp [push_formula, hpr, hsha, hcb, hrd, hup, hex, hpc])))⟩
  · intro hsha
    simp [push_formula, hpr, hsha]
  · intro sha hsha hcb
    simp [push_formula, hpr, hsha, hcb]
  · intro sha hsha hcb hrd
    simp [push_formula, hpr, hsha, hcb, hrd]
  · intro sha content hsha hcb hrd hup
    simp [push_formula, hpr, hsha, hcb, hrd, hup]
  · intro sha content hsha hcb hrd hup
    have hsome : (prBuilderOf brew.repository pr (baseBranchOf pr) (headBranchOf pr)
        (committerOf brew.commitAuthor)).execute =
        some ⟨brew.repository.owner, brew.repository.name, pr.title.getD "",
          headBranchOf pr, baseBranchOf pr, some (pr.body.getD ""),
          pr.assignees.getD [], pr.labels.getD []⟩ := rfl
    cases hpc : env.createPrOk <;>
      simp [push_formula, hpr, hsha, hcb, hrd, hup, hpc, hsome]

/-- Witness for pr_path_order: with branch creation failing, the concrete
run attempts exactly the sha lookup and the branch creation, nothing after;
with everything succeeding it attempts exactly the four calls in order. -/
theorem pr_path_order_witness :
    (push_formula envBranchFails brewFooPR).2 =
      [RemoteCall.getCommitSha "main",
       RemoteCall.createBranch "bumps-formula-version" "abc123"] ∧
    (push_formula envAllOk brewFooPR).2 =
      [RemoteCall.getCommitSha "main",
       RemoteCall.createBranch "bumps-formula-version" "abc123",
       RemoteCall.upsertFile "bumps-formula-version" "Foo.rb" "update formula" "class Foo"
         (some ⟨"Rafael Vigo", "rvigo07+github@gmail.com"⟩),
       RemoteCall.createPullRequest
         ⟨"cestef", "tap", "", "bumps-formula-version", "main", some "", [], []⟩] :=
  ⟨(pr_path_order envBranchFails brewFooPR prCfgBase rfl).2.2.1 "abc123" rfl rfl,
   (pr_path_order envAllOk brewFooPR prCfgBase rfl).2.2.2.2.2 "abc123" "class Foo"
     rfl rfl rfl rfl⟩

/-- C4: on the direct-commit path every remote call the workflow can attempt
is an upsert_file — get_commit_sha, create_branch and create_pull_request
are never called — and when the tag lookup, assembly, render and local
write succeed, exactly one remote call happens: upsert_file on the head
branch of the formula with its commit message and the rendered content. -/
theorem direct_commit_single_call (env : Env) (cfg : BrewConfig)
    (pkgs : List Package) (m : Bool) (hpr : cfg.pullRequest = none) :
    (∀ c ∈ remoteCalls (release env cfg pkgs m).2,
      ∃ br path msg content cm, c = RemoteCall.upsertFile br path msg content cm) ∧
    (∀ tag brew data, env.currentTag = some tag →
      Brew.new cfg tag pkgs = AssembleResult.ok brew →
      env.render (if m then Template.multiTarget else Template.singleTarget) brew = some data →
      env.writeOk = true →
      remoteCalls (release env cfg pkgs m).2 =
        [RemoteCall.upsertFile brew.head (brew.name ++ ".rb") brew.commitMessage data none]) := by
  constructor
  · intro c hc
    rcases htag : env.currentTag with _ | tag
    · simp [release, htag, remoteCalls] at hc
    cases hnew : Brew.new cfg tag pkgs with
    | configError => simp [release, htag, hnew, remoteCalls] at hc
    | panicked => simp [release, htag, hnew, remoteCalls] at hc
    | ok brew =>
      have hb : brew.pullRequest = none := by rw [Brew.new_ok_pullRequest hnew, hpr]
      rcases hr : env.render (if m then Template.multiTarget else Template.singleTarget) brew
          with _ | data
      · simp [release, htag, hnew, hr, remoteCalls] at hc
      cases hw : env.writeOk
      · simp [release, htag, hnew, hr, hw, remoteCalls] at hc
      cases hup : env.upsertOk brew.head
      all_goals
        simp [release, htag, hnew, hr, hw, hb, hup, remoteCalls] at hc
        exact ⟨_, _, _, _, _, hc⟩
  · intro tag brew data htag hnew hr hw
    have hb : brew.pullRequest = none := by rw [Brew.new_ok_pullRequest hnew, hpr]
    cases hup : env.upsertOk brew.head <;>
      simp [release, htag, hnew, hr, hw, hb, hup, remoteCalls]

/-- Witness for direct_commit_single_call: the all-success run over the
all-omitted config performs the single direct upload. -/
theorem direct_commit_single_call_witness :
    remoteCalls (release envAllOk cfgBase [] false).2 =
      [RemoteCall.upsertFile "main" "Foo.rb" "update formula" "class Foo" none] :=
  (direct_commit_single_call envAllOk cfgBase [] false rfl).2 "v1.0.0" brewFoo "class Foo"
    rfl (by decide) rfl rfl

/-- C9: main always invokes the brew release step with the multitarget flag
false, so every render of such a run uses the single-target template,
whatever the shape of the derived targets; and whenever the tag lookup and
assembly succeed, the single-target render is indeed attempted. -/
theorem main_single_template (env : Env) (cfg : BrewConfig) (pkgs : List Package) :
    (∀ t, Event.rendered t ∈ (mainBrewRelease env cfg pkgs).2 → t = Template.singleTarget) ∧
    (∀ tag brew, env.currentTag = some tag → Brew.new cfg tag pkgs = AssembleResult.ok brew →
      Event.rendered Template.singleTarget ∈ (mainBrewRelease env cfg pkgs).2) := by
  constructor
  · intro t ht
    rcases htag : env.currentTag with _ | tag
    · simp [mainBrewRelease, release, htag] at ht
    cases hnew : Brew.new cfg tag pkgs with
    | configError => simp [mainBrewRelease, release, htag, hnew] at ht
    | panicked => simp [mainBrewRelease, release, htag, hnew] at ht
    | ok brew =>
      rcases hr : env.render Template.singleTarget brew with _ | data
      · simp [mainBrewRelease, release, htag, hnew, hr] at ht
        exact ht
      cases hw : env.writeOk
      · simp [mainBrewRelease, release, htag, hnew, hr, hw] at ht
        exact ht
      rcases hb : brew.pullRequest with _ | pr
      · cases hup : env.upsertOk brew.head <;>
          · simp [mainBrewRelease, release, htag, hnew, hr, hw, hb, hup] at ht
            exact ht
      · simp [mainBrewRelease, release, htag, hnew, hr, hw, hb] at ht
        exact ht
  · intro tag brew htag hnew
    rcases hr : env.render Template.singleTarget brew with _ | data
    · simp [mainBrewRelease, release, htag, hnew, hr]
    cases hw : env.writeOk
    · simp [mainBrewRelease, release, htag, hnew, hr, hw]
    rcases hb : brew.pullRequest with _ | pr
    · cases hup : env.upsertOk brew.head <;>
        simp [mainBrewRelease, release, htag, hnew, hr, hw, hb, hup]
    · simp [mainBrewRelease, release, htag, hnew, hr, hw, hb]

/-- Witness for main_single_template: a concrete all-success run renders the
single-target template. -/
theorem main_single_template_witness :
    Event.rendered Template.singleTarget ∈ (mainBrewRelease envAllOk cfgBase []).2 :=
  (main_single_template envAllOk cfgBase []).2 "v1.0.0" brewFoo rfl (by decide)

/-- Helper: one-step unfolding of groupRuns. -/
lemma groupRuns_cons (p : Package) (ps : List Package) :
    groupRuns (p :: ps) =
      match groupRuns ps with
      | [] => [(p.os, [p])]
      | (k, g) :: rest =>
        if p.os = k then (k, p :: g) :: rest
        else (p.os, [p]) :: (k, g) :: rest := rfl

/-- Helper: groupRuns after an empty tail grouping. -/
lemma groupRuns_cons_of_nil {p : Package} {ps : List Package}
    (h : groupRuns ps = []) : groupRuns (p :: ps) = [(p.os, [p])] := by
  rw [groupRuns_cons, h]

/-- Helper: groupRuns when the new head extends the first run. -/
lemma groupRuns_cons_of_eq {p : Package} {ps : List Package} {k0 : Option Os}
    {g0 : List Package} {rest : List (Option Os × List Package)}
    (h : groupRuns ps = (k0, g0) :: rest) (hk : p.os = k0) :
    groupRuns (p :: ps) = (k0, p :: g0) :: rest := by
  rw [groupRuns_cons, h]
  simp [hk]

/-- Helper: groupRuns when the new head starts a fresh run. -/
lemma groupRuns_cons_of_ne {p : Package} {ps : List Package} {k0 : Option Os}
    {g0 : List Package} {rest : List (Option Os × List Package)}
    (h : groupRuns ps = (k0, g0) :: rest) (hk : p.os ≠ k0) :
    groupRuns (p :: ps) = (p.os, [p]) :: (k0, g0) :: rest := by
  rw [groupRuns_cons, h]
  simp [hk]

/-- Helper: grouping a non-empty list is non-empty. -/
lemma groupRuns_cons_ne_nil (p : Package) (ps : List Package) :
    groupRuns (p :: ps) ≠ [] := by
  rcases h : groupRuns ps with _ | ⟨⟨k0, g0⟩, rest⟩
  · rw [groupRuns_cons_of_nil h]; simp
  · by_cases hk : p.os = k0
    · rw [groupRuns_cons_of_eq h hk]; simp
    · rw [groupRuns_cons_of_ne h hk]; simp

/-- Helper: every group of groupRuns is non-empty and consists of input
members whose os equals the group key. -/
lemma groupRuns_mem : ∀ {l : List Package} {k : Option Os} {g : List Package},
    (k, g) ∈ groupRuns l → g ≠ [] ∧ ∀ p ∈ g, p ∈ l ∧ p.os = k := by
  intro l
  induction l with
  | nil => intro k g h; simp [groupRuns] at h
  | cons q qs ih =>
    intro k g h
    rcases hg : groupRuns qs with _ | ⟨⟨k0, g0⟩, rest⟩
    · rw [groupRuns_cons_of_nil hg] at h
      simp only [List.mem_singleton] at h
      rw [Prod.mk.injEq] at h
      obtain ⟨rfl, rfl⟩ := h
      refine ⟨by simp, ?_⟩
      intro p hp
      simp only [List.mem_singleton] at hp
      subst hp
      exact ⟨List.mem_cons_self _ _, rfl⟩
    · by_cases hk : q.os = k0
      · rw [groupRuns_cons_of_eq hg hk] at h
        rcases List.mem_cons.mp h with h1 | h2
        · rw [Prod.mk.injEq] at h1
          obtain ⟨rfl, rfl⟩ := h1
          refine ⟨by simp, ?_⟩
          intro p hp
          rcases List.mem_cons.mp hp with rfl | hp0
          · exact ⟨List.mem_cons_self _ _, hk⟩
          · have hm := (ih (by rw [hg]; exact List.mem_cons_self _ _)).2 p hp0
            exact ⟨List.mem_cons_of_mem _ hm.1, hm.2⟩
        · have hm := ih (show (k, g) ∈ groupRuns qs by
            rw [hg]; exact List.mem_cons_of_mem _ h2)
          exact ⟨hm.1, fun p hp => ⟨List.mem_cons_of_mem _ (hm.2 p hp).1, (hm.2 p hp).2⟩⟩
      · rw [groupRuns_cons_of_ne hg hk] at h
        rcases List.mem_cons.mp h with h1 | h2
        · rw [Prod.mk.injEq] at h1
          obtain ⟨rfl, rfl⟩ := h1
          refine ⟨by simp, ?_⟩
          intro p hp
          simp only [List.mem_singleton] at hp
          subst hp
          exact ⟨List.mem_cons_self _ _, rfl⟩
        · have hm := ih (show (k, g) ∈ groupRuns qs by rw [hg]; exact h2)
          exact ⟨hm.1, fun p hp => ⟨List.mem_cons_of_mem _ (hm.2 p hp).1, (hm.2 p hp).2⟩⟩

/-- Helper: mapM over Option succeeds pointwise. -/
lemma mapM_eq_map_of_forall {α β : Type} (f : α → Option β) (g : α → β) :
    ∀ xs : List α, (∀ x ∈ xs, f x = some (g x)) → xs.mapM f = some (xs.map g) := by
  intro xs
  induction xs with
  | nil => intro _; rfl
  | cons x xs ih =>
    intro h
    rw [List.mapM_cons, h x (List.mem_cons_self _ _),
      ih (fun y hy => h y (List.mem_cons_of_mem _ hy))]
    rfl

/-- Helper: on a group with a present key and all-tagged members the unwraps
of mkMultiTarget succeed and produce the expected MultiTarget. -/
lemma mkMultiTarget_eq_of_tagged {k : Option Os} {g : List Package}
    (hk : k.isSome) (hg : ∀ p ∈ g, p.arch.isSome) :
    mkMultiTarget (k, g) = some (specMultiT (k, g)) := by
  obtain ⟨os, rfl⟩ := Option.isSome_iff_exists.mp hk
  have harch : g.mapM (fun p => p.arch.map (fun a => BrewArch.mk a p.url p.sha256)) =
      some (g.map (fun p => BrewArch.mk (p.arch.getD Arch.amd64) p.url p.sha256)) := by
    apply mapM_eq_map_of_forall
    intro p hp
    obtain ⟨a, ha⟩ := Option.isSome_iff_exists.mp (hg p hp)
    simp [ha]
  have hbind : mkMultiTarget (some os, g) =
      (g.mapM (fun p : Package => p.arch.map (fun a => BrewArch.mk a p.url p.sha256))).bind
        (fun archs => some ⟨os, archs⟩) := rfl
  rw [hbind, harch]
  rfl

/-- Helper: under the all-tagged precondition derive never panics and equals
the run-grouped multi targets. -/
lemma fromPackages_of_allTagged (value : List Package) (h : allTagged value) :
    Targets.fromPackages value = some ⟨(groupRuns value).map specMulti⟩ := by
  match value with
  | [] => rfl
  | p :: ps =>
    have hos : p.os.isSome := (h p (List.mem_cons_self _ _)).1
    have hcond : ¬(p.arch = none ∧ p.os = none) := by
      intro hcon
      rw [hcon.2] at hos
      simp at hos
    have hmapm : (groupRuns (p :: ps)).mapM mkMultiTarget =
        some ((groupRuns (p :: ps)).map specMultiT) := by
      apply mapM_eq_map_of_forall
      intro x hx
      rcases x with ⟨k, g⟩
      obtain ⟨hne, hmem⟩ := groupRuns_mem hx
      obtain ⟨p0, hp0g⟩ := List.exists_mem_of_ne_nil g hne
      have hp0 := hmem p0 hp0g
      have hk : k.isSome := hp0.2 ▸ (h p0 hp0.1).1
      refine mkMultiTarget_eq_of_tagged hk ?_
      intro q hq
      exact (h q (hmem q hq).1).2
    have hfp : Targets.fromPackages (p :: ps) =
        ((groupRuns (p :: ps)).mapM mkMultiTarget).map (fun ms => ⟨ms.map Target.multi⟩) := by
      simp only [Targets.fromPackages, if_neg hcond]
    rw [hfp, hmapm]
    simp [specMulti, List.map_map, Function.comp]

/-- C8: under the all-tagged precondition the unwraps of the multi branch
never fire — the os and arch extractions always succeed and derive returns
a Targets value. -/
theorem multi_unwraps_total (value : List Package) (h : allTagged value) :
    (Targets.fromPackages value).isSome := by
  rw [fromPackages_of_allTagged value h]
  rfl

/-- Witness for multi_unwraps_total on a concrete all-tagged input. -/
theorem multi_unwraps_total_witness :
    allTagged [pkgL1, pkgD2, pkgL3] ∧
    (Targets.fromPackages [pkgL1, pkgD2, pkgL3]).isSome :=
  ⟨by decide, multi_unwraps_total [pkgL1, pkgD2, pkgL3] (by decide)⟩

/-- Helper: the keys of the spec partition are the first-appearance keys. -/
lemma partitionByOs_map_fst (l : List Package) :
    (partitionByOs l).map Prod.fst = firstKeys l := by
  simp only [partitionByOs, List.map_map]
  have hcomp : (Prod.fst ∘ fun k : Option Os => (k, l.filter (fun p => p.os = k))) = id := by
    funext k
    rfl
  rw [hcomp, List.map_id]

/-- Helper: the os of every member appears among the first-appearance keys. -/
lemma mem_firstKeys_of_mem : ∀ {l : List Package} {p : Package},
    p ∈ l → p.os ∈ firstKeys l := by
  intro l
  induction l with
  | nil => intro p h; simp at h
  | cons q qs ih =>
    intro p h
    simp only [firstKeys]
    rcases List.mem_cons.mp h with rfl | h2
    · exact List.mem_cons_self _ _
    · by_cases he : p.os = q.os
      · rw [he]; exact List.mem_cons_self _ _
      · refine List.mem_cons_of_mem _ ?_
        rw [List.mem_filter]
        exact ⟨ih h2, by simp [he]⟩

/-- Helper: a key absent from the first-appearance keys matches nothing. -/
lemma filter_os_eq_nil {l : List Package} {o : Option Os}
    (h : o ∉ firstKeys l) : l.filter (fun q => q.os = o) = [] := by
  rw [List.filter_eq_nil_iff]
  intro q hq
  simp only [decide_eq_true_eq]
  intro he
  exact h (he ▸ mem_firstKeys_of_mem hq)

/-- Helper: when the run keys are pairwise distinct, consecutive-run
grouping is exactly the first-appearance partition. -/
lemma groupRuns_eq_partitionByOs : ∀ l : List Package,
    ((groupRuns l).map Prod.fst).Nodup → groupRuns l = partitionByOs l := by
  intro l
  induction l with
  | nil => intro _; rfl
  | cons p ps ih =>
    intro hnd
    rcases hg : groupRuns ps with _ | ⟨⟨k0, g0⟩, rest⟩
    · have hps : ps = [] := by
        cases ps with
        | nil => rfl
        | cons a as => exact absurd hg (groupRuns_cons_ne_nil a as)
      subst hps
      rw [groupRuns_cons_of_nil hg]
      simp [partitionByOs, firstKeys]
    · by_cases hk : p.os = k0
      · rw [groupRuns_cons_of_eq hg hk] at hnd ⊢
        simp only [List.map_cons] at hnd
        have hnd' : ((groupRuns ps).map Prod.fst).Nodup := by
          rw [hg]
          simpa using hnd
        have hpart : (k0, g0) :: rest = partitionByOs ps := by
          rw [← hg]; exact ih hnd'
        have hfk : firstKeys ps = k0 :: rest.map Prod.fst := by
          rw [← partitionByOs_map_fst, ← hpart]
          simp
        have hk0nin : k0 ∉ rest.map Prod.fst := ((List.nodup_cons).mp hnd).1
        have hps_part : partitionByOs ps =
            (k0, ps.filter (fun q => q.os = k0)) ::
              (rest.map Prod.fst).map (fun k => (k, ps.filter (fun q => q.os = k))) := by
          simp only [partitionByOs]
          rw [hfk]
          simp [List.map_cons]
        have hcomp := hpart.trans hps_part
        rw [List.cons.injEq, Prod.mk.injEq] at hcomp
        have hhead : g0 = ps.filter (fun q => q.os = k0) := hcomp.1.2
        have htail : rest =
            (rest.map Prod.fst).map (fun k => (k, ps.filter (fun q => q.os = k))) := hcomp.2
        have hfilter : (rest.map Prod.fst).filter (fun k => k ≠ k0) = rest.map Prod.fst := by
          apply List.filter_eq_self.mpr
          intro a ha
          have hak : a ≠ k0 := fun he => hk0nin (he ▸ ha)
          simp [hak]
        have hfk2 : firstKeys (p :: ps) = k0 :: rest.map Prod.fst := by
          simp only [firstKeys]
          rw [hfk, hk, List.filter_cons]
          have hcnd : (decide (k0 ≠ k0)) = false := by simp
          rw [hcnd, if_neg Bool.false_ne_true, hfilter]
        simp only [partitionByOs]
        rw [hfk2]
        simp only [List.map_cons]
        rw [List.cons.injEq, Prod.mk.injEq]
        refine ⟨⟨rfl, ?_⟩, ?_⟩
        · rw [List.filter_cons]
          have hdp : decide (p.os = k0) = true := by simp [hk]
          rw [hdp, if_pos rfl, ← hhead]
        · have hmapeq : (rest.map Prod.fst).map
              (fun k => (k, (p :: ps).filter (fun q => q.os = k))) =
              (rest.map Prod.fst).map (fun k => (k, ps.filter (fun q => q.os = k))) := by
            apply List.map_congr_left
            intro a ha
            rw [Prod.mk.injEq]
            refine ⟨rfl, ?_⟩
            rw [List.filter_cons]
            have hne : ¬p.os = a := fun he => hk0nin ((he.symm.trans hk) ▸ ha)
            simp [hne]
          rw [hmapeq, ← htail]
      · rw [groupRuns_cons_of_ne hg hk] at hnd ⊢
        simp only [List.map_cons] at hnd
        have hnd' : ((groupRuns ps).map Prod.fst).Nodup := by
          rw [hg]
          simp only [List.map_cons]
          exact ((List.nodup_cons).mp hnd).2
        have hpart : (k0, g0) :: rest = partitionByOs ps := by
          rw [← hg]; exact ih hnd'
        have hfk : firstKeys ps = k0 :: rest.map Prod.fst := by
          rw [← partitionByOs_map_fst, ← hpart]
          simp
        have hpos_nin : p.os ∉ firstKeys ps := by
          rw [hfk]
          exact ((List.nodup_cons).mp hnd).1
        have hfk2 : firstKeys (p :: ps) = p.os :: firstKeys ps := by
          simp only [firstKeys]
          rw [List.cons.injEq]
          refine ⟨rfl, ?_⟩
          apply List.filter_eq_self.mpr
          intro a ha
          have hak : a ≠ p.os := fun he => hpos_nin (he ▸ ha)
          simp [hak]
        simp only [partitionByOs]
        rw [hfk2]
        simp only [List.map_cons]
        rw [List.cons.injEq, Prod.mk.injEq]
        refine ⟨⟨rfl, ?_⟩, ?_⟩
        · rw [List.filter_cons]
          have hdp : decide (p.os = p.os) = true := by simp
          rw [hdp, if_pos rfl, filter_os_eq_nil hpos_nin]
        · have hmapeq : (firstKeys ps).map
              (fun k => (k, (p :: ps).filter (fun q => q.os = k))) =
              (firstKeys ps).map (fun k => (k, ps.filter (fun q => q.os = k))) := by
            apply List.map_congr_left
            intro a ha
            rw [Prod.mk.injEq]
            refine ⟨rfl, ?_⟩
            rw [List.filter_cons]
            have hne : ¬p.os = a := fun he => hpos_nin (he ▸ ha)
            simp [hne]
          rw [hmapeq]
          rw [hpart]
          simp only [partitionByOs]

/-- C1 counterexample: on the spec example input, whose two linux artifacts
are not adjacent, derive emits three Multi entries — one per consecutive
run, itertools group_by semantics — and not the two distinct-os entries the
claim requires. -/
theorem multi_policy_counterexample :
    Targets.fromPackages [pkgL1, pkgD2, pkgL3] =
      some ⟨[Target.multi ⟨Os.linux, [⟨Arch.amd64, "u1", "h1"⟩]⟩,
             Target.multi ⟨Os.darwin, [⟨Arch.arm64, "u2", "h2"⟩]⟩,
             Target.multi ⟨Os.linux, [⟨Arch.arm64, "u3", "h3"⟩]⟩]⟩ ∧
    (partitionByOs [pkgL1, pkgD2, pkgL3]).map specMulti =
      [Target.multi ⟨Os.linux, [⟨Arch.amd64, "u1", "h1"⟩, ⟨Arch.arm64, "u3", "h3"⟩]⟩,
       Target.multi ⟨Os.darwin, [⟨Arch.arm64, "u2", "h2"⟩]⟩] ∧
    Targets.fromPackages [pkgL1, pkgD2, pkgL3] ≠
      some ⟨(partitionByOs [pkgL1, pkgD2, pkgL3]).map specMulti⟩ := by
  refine ⟨by decide, by decide, by decide⟩

/-- C1 (amended): for all-tagged inputs in which the artifacts of each os
are adjacent, derive yields one Multi entry per distinct os, in order of
first appearance, each containing all artifacts of that os in input order;
when artifacts sharing an os are not adjacent, each maximal run yields its
own Multi entry instead (see the counterexample). -/
theorem multi_policy_partition (value : List Package) (h : allTagged value)
    (hc : osContiguous value) :
    Targets.fromPackages value = some ⟨(partitionByOs value).map specMulti⟩ := by
  rw [fromPackages_of_allTagged value h, groupRuns_eq_partitionByOs value hc]

/-- Witness for multi_policy_partition on a concrete contiguous all-tagged
input with two linux artifacts followed by a darwin one. -/
theorem multi_policy_partition_witness :
    allTagged [pkgL1, pkgL3, pkgD2] ∧ osContiguous [pkgL1, pkgL3, pkgD2] ∧
    Targets.fromPackages [pkgL1, pkgL3, pkgD2] =
      some ⟨(partitionByOs [pkgL1, pkgL3, pkgD2]).map specMulti⟩ :=
  ⟨by decide, by decide, multi_policy_partition [pkgL1, pkgL3, pkgD2] (by decide) (by decide)⟩

end Rustreleaser
